import Mathlib

/-!
# Verification of the StudyBuddy chat worker (src/server.ts)

Shallow embedding of the conversation-state core of the repository:
the Durable Object storage helpers (`loadHistory`, `saveHistory`,
`clearHistory`), the reply generator (`getAIResponse`), the per-instance
request handler (`ChatAgent.fetch`) and the Worker router
(`default.fetch`).  JavaScript strings are Lean `String`s, JS runtime
values returned by the model call are `JSValue`, a thrown exception or a
rejected promise is `Except.error`.
-/

namespace StudyBuddy

/-- A JavaScript runtime value, as far as the reply-extraction code can
distinguish them: a string, a number, a boolean, `null`, `undefined`, or
an object with named fields. -/
inductive JSValue where
  | vstr (s : String)
  | vnum (n : Int)
  | vbool (b : Bool)
  | vnull
  | vundef
  | vobj (fields : List (String × JSValue))

/-- Durable Object storage of one ChatAgent instance: the array stored
under the fixed key "history", or `none` when nothing was ever written
(or it was deleted). -/
abbrev StoreState := Option (List String)

/-- `loadHistory` (server.ts 67-69): `storage.get("history") || []`. -/
def loadHistory (st : StoreState) : List String := st.getD []

/-- `saveHistory` (server.ts 72-74): `storage.put("history", history)`. -/
def saveHistory (_st : StoreState) (history : List String) : StoreState :=
  some history

/-- `clearHistory` (server.ts 77-79): `storage.delete("history")`. -/
def clearHistory (_st : StoreState) : StoreState := none

/-- JS `Array.prototype.join("\n")` on an array of strings. -/
def joinLines : List String → String
  | [] => ""
  | [line] => line
  | line :: rest => line ++ "\n" ++ joinLines rest

/-- The fixed system instruction of `getAIResponse` (server.ts 88-89).
The apostrophe-free transcription point: the source file writes
`couldn’t` with U+2019 in its fallback string, see `fallbackReply`. -/
def systemPrompt : String :=
  "You are \"AI Study Buddy\", a concise and encouraging AI tutor.\nReply in a natural, friendly tone. Keep answers short (1–2 sentences)."

/-- The request handed to `env.AI.run` (server.ts 92-101): a list of
(role, content) messages and the `max_tokens` cap. -/
structure AIRequest where
  messages : List (String × String)
  max_tokens : Nat

/-- The literal fallback string of server.ts line 108; the source uses
the typographic apostrophe U+2019 in `couldn’t`. -/
def fallbackReply : String := "Sorry, I couldn’t generate a reply."

/-- JS `String.prototype.trim()`: drop whitespace characters from both
ends of the string. -/
def jsTrim (s : String) : String :=
  String.mk
    (((s.data.dropWhile Char.isWhitespace).reverse.dropWhile
      Char.isWhitespace).reverse)

/-- Reply extraction (server.ts 104-108).  `Except.error ()` models a
thrown `TypeError`: `(result as any).response.trim()` is evaluated
whenever `result` is an object with a `response` field, and throws when
that field is not a string. `null` is `typeof "object"` but falsy, so it
falls to the fallback; numbers and booleans fail the `typeof` test. -/
def extractReply : JSValue → Except Unit String
  | .vstr s => .ok (jsTrim s)
  | .vobj fields =>
      match fields.lookup "response" with
      | some (.vstr r) => .ok (jsTrim r)
      | some _ => .error ()
      | none => .ok fallbackReply
  | _ => .ok fallbackReply

/-- The single `env.AI.run` call: the model either rejects the promise
(`Except.error`) or resolves to some JS value. -/
abbrev AIOracle := AIRequest → Except Unit JSValue

/-- The request built by `getAIResponse` (server.ts 85-101): the prior
history lines with `"User: <prompt>"` appended, joined by newlines, as
the single user message after the fixed system message, capped at 50
output tokens. -/
def getAIRequest (prompt : String) (history : List String) : AIRequest :=
  let conversation := joinLines (history ++ ["User: " ++ prompt])
  { messages := [("system", systemPrompt), ("user", conversation)]
    max_tokens := 50 }

/-- `getAIResponse` (server.ts 84-109): issue the one model call, then
extract the reply text; a rejected call propagates. -/
def getAIResponse (prompt : String) (history : List String) (ai : AIOracle) :
    Except Unit String :=
  match ai (getAIRequest prompt history) with
  | .error e => .error e
  | .ok result => extractReply result

/-- HTTP method, as far as the code distinguishes them. -/
inductive Method where
  | get
  | post
  | other
deriving DecidableEq

/-- An inbound HTTP request: method, URL pathname, and body text. -/
structure Req where
  method : Method
  path : String
  body : String

/-- JS `s.endsWith(t)`. -/
def endsWithStr (s t : String) : Bool := decide (t.data <:+ s.data)

/-- JS `s.startsWith(t)`. -/
def startsWithStr (s t : String) : Bool := decide (t.data <+: s.data)

/-- The POST branch of `ChatAgent.fetch` (server.ts 125-136): load the
history, generate a reply, push the user line and the AI line, save.  A
failed generation propagates the rejection and leaves storage untouched
(the `push`/`put` lines are never reached). -/
def handlePost (st : StoreState) (body : String) (ai : AIOracle) :
    Except Unit String × StoreState :=
  let history := loadHistory st
  match getAIResponse body history ai with
  | .error e => (.error e, st)
  | .ok reply =>
      (.ok reply, saveHistory st (history ++ ["User: " ++ body, "AI: " ++ reply]))

/-- The GET branch of `ChatAgent.fetch` (server.ts 139-144): the stored
lines joined with newlines. -/
def handleGet (st : StoreState) : String := joinLines (loadHistory st)

/-- `ChatAgent.fetch` (server.ts 113-148): the `/reset` suffix test comes
first, before any method test; then POST, then GET, then the default
acknowledgement. -/
def agentFetch (st : StoreState) (req : Req) (ai : AIOracle) :
    Except Unit String × StoreState :=
  if endsWithStr req.path "/reset" then
    (.ok "✅ Chat history cleared.", clearHistory st)
  else if req.method = .post then
    handlePost st req.body ai
  else if req.method = .get then
    (.ok (handleGet st), st)
  else
    (.ok "ChatAgent ready (send POST data)", st)

/-- One storage state per Durable Object instance name. -/
abbrev SystemState := String → StoreState

/-- JS `String.prototype.split(sep)` for a one-character separator,
written over the character list of the string. -/
def splitCh (sep : Char) : List Char → List (List Char)
  | [] => [[]]
  | c :: cs =>
      if c = sep then [] :: splitCh sep cs
      else
        match splitCh sep cs with
        | [] => [[c]]
        | l :: ls => (c :: l) :: ls

/-- `url.pathname.split("/").pop()!` (server.ts 23): the last slash
separated segment of the path. -/
def lastSegment (path : String) : String :=
  String.mk ((splitCh '/' path.data).getLastD [])

/-- The Worker router `default.fetch` (server.ts 17-48): requests whose
path starts with `/chat/` and whose method is POST or GET are dispatched
to the Durable Object instance named by the LAST path segment; all other
requests go to static-asset serving (an external collaborator, modelled
as a fixed response that leaves every chat instance untouched). -/
def routerFetch (sys : SystemState) (req : Req) (ai : AIOracle) :
    Except Unit String × SystemState :=
  if startsWithStr req.path "/chat/" &&
      (req.method = .post || req.method = .get) then
    let id := lastSegment req.path
    let result := agentFetch (sys id) req ai
    (result.1, fun k => if k = id then result.2 else sys k)
  else
    (.ok "(static asset)", sys)

/-- The lines of a text, splitting on the newline character.  Observer
used to state the "last line" claims. -/
def textLines (s : String) : List String := (splitCh '\n' s.data).map String.mk

/-- The last line of a text. -/
def lastLineOf (s : String) : Option String := (textLines s).getLast?

/-- The line immediately preceding the last line of a text. -/
def penultimateLineOf (s : String) : Option String :=
  (textLines s).dropLast.getLast?

/-- Sequential successful posts against one instance; any failed post
aborts the run. -/
def runPosts (st : StoreState) : List (String × AIOracle) → Except Unit StoreState
  | [] => .ok st
  | (m, ai) :: rest =>
      match handlePost st m ai with
      | (.ok _, st2) => runPosts st2 rest
      | (.error e, _) => .error e

/-- The interleaved `User:`/`AI:` lines of a list of (message, reply)
turns. -/
def turnLines : List (String × String) → List String
  | [] => []
  | (m, r) :: rest => ("User: " ++ m) :: ("AI: " ++ r) :: turnLines rest

/-- Is the value a plain JS string? -/
def isStringVal : JSValue → Bool
  | .vstr _ => true
  | _ => false

/-- The `response` field of an object value, when present. -/
def responseFieldOf : JSValue → Option JSValue
  | .vobj fields => fields.lookup "response"
  | _ => none

/-- Does the value carry a `response` field? -/
def hasResponseField (v : JSValue) : Bool := (responseFieldOf v).isSome

/-! ## Helper lemmas -/

theorem strMk_data (s : String) : String.mk s.data = s := rfl

theorem loadHistory_saveHistory (st : StoreState) (l : List String) :
    loadHistory (saveHistory st l) = l := rfl

theorem splitCh_ne_nil (sep : Char) (cs : List Char) : splitCh sep cs ≠ [] := by
  induction cs with
  | nil => simp [splitCh]
  | cons c cs ih =>
    simp only [splitCh]
    by_cases h : c = sep
    · simp [h]
    · simp only [h, if_false]
      cases hs : splitCh sep cs with
      | nil => simp
      | cons l ls => simp

theorem splitCh_cons_of_ne (sep c : Char) (cs : List Char) (h : ¬ c = sep) :
    splitCh sep (c :: cs) =
      (c :: (splitCh sep cs).headD []) :: (splitCh sep cs).tail := by
  simp only [splitCh, h, if_false]
  cases hs : splitCh sep cs with
  | nil => exact absurd hs (splitCh_ne_nil sep cs)
  | cons l ls => simp

theorem splitCh_append (sep : Char) (cs ds : List Char) :
    splitCh sep (cs ++ sep :: ds) = splitCh sep cs ++ splitCh sep ds := by
  induction cs with
  | nil => simp [splitCh]
  | cons c cs ih =>
    by_cases h : c = sep
    · subst h
      simp [splitCh, ih]
    · rw [List.cons_append, splitCh_cons_of_ne sep c _ h,
        splitCh_cons_of_ne sep c _ h, ih]
      have h1 : splitCh sep cs ≠ [] := splitCh_ne_nil sep cs
      cases hs : splitCh sep cs with
      | nil => exact absurd hs h1
      | cons l ls => simp

theorem splitCh_of_not_mem (sep : Char) (cs : List Char) (h : sep ∉ cs) :
    splitCh sep cs = [cs] := by
  induction cs with
  | nil => rfl
  | cons c cs ih =>
    have hc : ¬ c = sep := fun hh => h (hh ▸ List.mem_cons_self c cs)
    have hcs : sep ∉ cs := fun hh => h (List.mem_cons_of_mem c hh)
    rw [splitCh_cons_of_ne sep c cs hc, ih hcs]
    simp

theorem joinLines_cons_cons (a b : String) (t : List String) :
    joinLines (a :: b :: t) = a ++ "\n" ++ joinLines (b :: t) := rfl

/-- Data of a newline join: the characters of the head, a newline, then the
rest, whenever the tail is nonempty. -/
theorem joinLines_data_cons (a : String) (l : List String) (h : l ≠ []) :
    (joinLines (a :: l)).data = a.data ++ '\n' :: (joinLines l).data := by
  cases l with
  | nil => exact absurd rfl h
  | cons b t =>
    rw [joinLines_cons_cons]
    simp [String.data_append]

/-- Splitting a newline join of lines whose last two elements are
newline-free ends in exactly those two lines. -/
theorem textLines_append_two (old : List String) (u a : String)
    (hu : '\n' ∉ u.data) (ha : '\n' ∉ a.data) :
    ∃ pre, textLines (joinLines (old ++ [u, a])) = pre ++ [u, a] := by
  induction old with
  | nil =>
    refine ⟨[], ?_⟩
    have hdata : (joinLines [u, a]).data = u.data ++ '\n' :: a.data := by
      have h2 := joinLines_data_cons u [a] (by simp)
      simp only [joinLines] at h2
      exact h2
    simp only [List.nil_append, textLines, hdata, splitCh_append,
      splitCh_of_not_mem '\n' u.data hu, splitCh_of_not_mem '\n' a.data ha]
    simp [strMk_data]
  | cons x old ih =>
    obtain ⟨pre, hpre⟩ := ih
    have hne : old ++ [u, a] ≠ [] := by simp
    have hdata := joinLines_data_cons x (old ++ [u, a]) hne
    refine ⟨(splitCh '\n' x.data).map String.mk ++ pre, ?_⟩
    simp only [List.cons_append, textLines, hdata, splitCh_append, List.map_append]
    simp only [textLines] at hpre
    rw [hpre, List.append_assoc]

theorem endsWithStr_append (pre t : String) : endsWithStr (pre ++ t) t = true := by
  simp [endsWithStr, String.data_append, List.suffix_append]

theorem startsWithStr_append (t rest : String) :
    startsWithStr (t ++ rest) t = true := by
  simp [startsWithStr, String.data_append, List.prefix_append]

/-- `split("/").pop()` of a path of the form `pre ++ "/" ++ seg`, for a
slash-free final segment, is that final segment — whatever `pre` is. -/
theorem lastSegment_append (pre seg : String) (hseg : '/' ∉ seg.data) :
    lastSegment (pre ++ "/" ++ seg) = seg := by
  have hdata : (pre ++ "/" ++ seg).data = pre.data ++ '/' :: seg.data := by
    simp [String.data_append]
  rw [lastSegment, hdata, splitCh_append, splitCh_of_not_mem '/' seg.data hseg,
    List.getLastD_concat]

/-- `split("/").pop()` of any path of the form `pre ++ "/reset"` is the
segment "reset", whatever `pre` is. -/
theorem lastSegment_reset (pre : String) :
    lastSegment (pre ++ "/reset") = "reset" := by
  have h2 : ("/reset" : String).data = '/' :: ("reset" : String).data := by decide
  rw [lastSegment, String.data_append, h2, splitCh_append,
    splitCh_of_not_mem '/' ("reset" : String).data (by decide),
    List.getLastD_concat]

/-! ## Claim theorems -/

/-- C8: at the store level, `load` on an identifier that has never been
written returns the empty sequence (not an error), `clear` followed by
`load` returns the empty sequence from any prior state, and `clear`
succeeds even when nothing was ever stored. -/
theorem c8_store_load_clear :
    loadHistory none = [] ∧
    (∀ st : StoreState, loadHistory (clearHistory st) = []) ∧
    clearHistory none = none :=
  ⟨rfl, fun _ => rfl, rfl⟩

/-- C2: if reply generation fails (the model call rejects, or extraction
throws), the post operation propagates the error and leaves storage
untouched, so a get after the failed post observes exactly the history
from before the attempt; in particular the pending user line is not
persisted on its own. -/
theorem c2_failed_generation_no_append (st : StoreState) (m : String)
    (ai : AIOracle) (e : Unit)
    (h : getAIResponse m (loadHistory st) ai = .error e) :
    handlePost st m ai = (.error e, st) ∧
    handleGet (handlePost st m ai).2 = handleGet st := by
  have h1 : handlePost st m ai = (.error e, st) := by
    simp [handlePost, h]
  exact ⟨h1, by rw [h1]⟩

theorem c2_witness :
    getAIResponse "hi" (loadHistory (some ["User: a", "AI: b"]))
        (fun _ => .error ()) = .error () ∧
    (handlePost (some ["User: a", "AI: b"]) "hi" (fun _ => .error ()) =
        (.error (), some ["User: a", "AI: b"]) ∧
      handleGet (handlePost (some ["User: a", "AI: b"]) "hi"
        (fun _ => .error ())).2 = handleGet (some ["User: a", "AI: b"])) :=
  ⟨rfl, c2_failed_generation_no_append (some ["User: a", "AI: b"]) "hi"
    (fun _ => .error ()) () rfl⟩

/-- C3 counterexample: on a value that is neither a string nor an object
with a `response` field (here `null`) the code returns its fallback
literal, which is written with the typographic apostrophe U+2019 in the
source and therefore differs, character for character, from the claimed
ASCII-apostrophe string. -/
theorem c3_counterexample :
    extractReply .vnull = .ok fallbackReply ∧
    fallbackReply ≠ "Sorry, I couldn\x27t generate a reply." :=
  ⟨rfl, by decide⟩

/-- C3 (amended): when the model value is neither a plain string nor an
object carrying a `response` field, the extracted — and persisted —
reply is exactly the source literal "Sorry, I couldn’t generate a
reply.", whose apostrophe is U+2019 rather than ASCII. -/
theorem c3_fallback_literal (v : JSValue)
    (h1 : isStringVal v = false) (h2 : hasResponseField v = false) :
    extractReply v = .ok fallbackReply := by
  cases v with
  | vstr s => simp [isStringVal] at h1
  | vobj fields =>
      cases hl : fields.lookup "response" with
      | none => simp [extractReply, hl]
      | some w =>
          exfalso
          simp [hasResponseField, responseFieldOf, hl] at h2
  | vnum n => rfl
  | vbool b => rfl
  | vnull => rfl
  | vundef => rfl

theorem c3_witness :
    isStringVal .vnull = false ∧ hasResponseField .vnull = false ∧
    extractReply .vnull = .ok fallbackReply :=
  ⟨rfl, rfl, c3_fallback_literal .vnull rfl rfl⟩

/-- C4 counterexample: an object whose `response` field is the number 4
makes reply extraction throw (`.trim()` is called on a non-string), so
extraction is not total over every object carrying a `response` field of
any type. -/
theorem c4_counterexample :
    extractReply (.vobj [("response", .vnum 4)]) = .error () := rfl

/-- C4 (amended): reply extraction never throws — it totally produces a
reply string, degrading to the fixed fallback — for every model value
except an object whose `response` field is present and not a string:
any string, null, number, boolean, undefined, object without a
`response` field, or object whose `response` field is a string. -/
theorem c4_extract_total (v : JSValue)
    (h : ∀ w, responseFieldOf v = some w → ∃ s, w = .vstr s) :
    ∃ r, extractReply v = .ok r := by
  cases v with
  | vstr s => exact ⟨jsTrim s, rfl⟩
  | vobj fields =>
      cases hl : fields.lookup "response" with
      | none => exact ⟨fallbackReply, by simp [extractReply, hl]⟩
      | some w =>
          obtain ⟨s, hs⟩ := h w (by simpa [responseFieldOf] using hl)
          subst hs
          exact ⟨jsTrim s, by simp [extractReply, hl]⟩
  | vnum n => exact ⟨fallbackReply, rfl⟩
  | vbool b => exact ⟨fallbackReply, rfl⟩
  | vnull => exact ⟨fallbackReply, rfl⟩
  | vundef => exact ⟨fallbackReply, rfl⟩

theorem c4_witness :
    (∀ w, responseFieldOf (.vobj [("response", .vstr "hi")]) = some w →
      ∃ s, w = .vstr s) ∧
    ∃ r, extractReply (.vobj [("response", .vstr "hi")]) = .ok r :=
  ⟨fun _ hw => ⟨"hi", (Option.some.inj hw).symm⟩,
    c4_extract_total _ (fun _ hw => ⟨"hi", (Option.some.inj hw).symm⟩)⟩

/-- C10: inside the handler the reset branch is selected purely by the
path suffix "/reset", before any method test, so a GET request whose
path ends in "/reset" clears the stored history and returns the
acknowledgement text rather than returning the history. -/
theorem c10_get_reset_clears (st : StoreState) (pre body : String)
    (ai : AIOracle) :
    agentFetch st ⟨.get, pre ++ "/reset", body⟩ ai =
      (.ok "✅ Chat history cleared.", none) := by
  simp [agentFetch, endsWithStr_append, clearHistory]

/-- C9: the Worker router resolves the instance from only the last path
segment of the URL, so every chat request (POST or GET) whose path is
"/chat/{id}/reset" — for any id — is dispatched to the single instance
named by the literal string "reset", which clears its own storage; the
instance owning {id} (and every other instance) is left untouched. -/
theorem c9_reset_routes_to_reset_instance (sys : SystemState)
    (id body : String) (mth : Method) (hm : mth = .post ∨ mth = .get)
    (ai : AIOracle) :
    routerFetch sys ⟨mth, "/chat/" ++ id ++ "/reset", body⟩ ai =
      (.ok "✅ Chat history cleared.",
        fun k => if k = "reset" then none else sys k) := by
  have hstart : startsWithStr ("/chat/" ++ id ++ "/reset") "/chat/" = true := by
    rw [String.append_assoc]
    exact startsWithStr_append "/chat/" (id ++ "/reset")
  have hends := endsWithStr_append ("/chat/" ++ id) "/reset"
  have hlast := lastSegment_reset ("/chat/" ++ id)
  rcases hm with hm | hm <;> subst hm <;>
    simp [routerFetch, agentFetch, hstart, hends, hlast, clearHistory]

theorem c9_witness :
    (Method.post = .post ∨ Method.post = .get) ∧
    routerFetch (fun _ => some ["User: hi"])
        ⟨.post, "/chat/" ++ "abc" ++ "/reset", ""⟩ (fun _ => .ok .vnull) =
      (.ok "✅ Chat history cleared.",
        fun k => if k = "reset" then none else some ["User: hi"]) :=
  ⟨Or.inl rfl,
    c9_reset_routes_to_reset_instance (fun _ => some ["User: hi"]) "abc" ""
      .post (Or.inl rfl) (fun _ => .ok .vnull)⟩

/-- C1: evaluation of the code at the failing input — instance "abc"
holds two lines; POST /chat/abc/reset (which the router sends to the
instance named "reset") followed by GET /chat/abc returns the untouched
two-line history instead of the empty text the claim requires. -/
theorem c1_reset_then_get_not_empty :
    (routerFetch
        (routerFetch
          (fun k => if k = "abc" then some ["User: hi", "AI: hello"] else none)
          ⟨.post, "/chat/abc/reset", ""⟩ (fun _ => .ok .vnull)).2
        ⟨.get, "/chat/abc", ""⟩ (fun _ => .ok .vnull)).1 =
      .ok "User: hi\nAI: hello" ∧
    ("User: hi\nAI: hello" : String) ≠ "" :=
  ⟨rfl, by decide⟩

/-- `String.intercalate.go` unfolds to the JS-style join. -/
theorem joinLines_go (l : List String) :
    ∀ acc, String.intercalate.go acc "\n" l =
      (match l with
       | [] => acc
       | _ :: _ => acc ++ "\n" ++ joinLines l) := by
  induction l with
  | nil => intro acc; rfl
  | cons a as ih =>
    intro acc
    cases as with
    | nil => rfl
    | cons b bs =>
      have h := ih (acc ++ "\n" ++ a)
      show String.intercalate.go (acc ++ "\n" ++ a) "\n" (b :: bs) = _
      rw [h]
      simp [joinLines_cons_cons, String.append_assoc]

/-- The JS `Array.prototype.join("\n")` embedding agrees with the
spec-side newline join `String.intercalate "\n"`. -/
theorem joinLines_eq_intercalate (l : List String) :
    joinLines l = String.intercalate "\n" l := by
  cases l with
  | nil => rfl
  | cons a as =>
    cases as with
    | nil => rfl
    | cons b bs =>
      show joinLines (a :: b :: bs) = String.intercalate.go a "\n" (b :: bs)
      rw [joinLines_go (b :: bs) a, joinLines_cons_cons]

/-- C7: for every history and user message the reply generator issues
exactly one model request whose message list is exactly the fixed system
instruction followed by one user-role message containing the prior raw
lines with "User: <message>" appended, joined by newlines, and whose
maximum output length is capped at 50 generated tokens; the result of
the generator depends only on the answer to that single request. -/
theorem c7_request_shape (prompt : String) (history : List String) :
    (getAIRequest prompt history).messages =
      [("system", systemPrompt),
       ("user", String.intercalate "\n" (history ++ ["User: " ++ prompt]))] ∧
    (getAIRequest prompt history).messages.length = 2 ∧
    (getAIRequest prompt history).max_tokens = 50 ∧
    (∀ o1 o2 : AIOracle,
      o1 (getAIRequest prompt history) = o2 (getAIRequest prompt history) →
      getAIResponse prompt history o1 = getAIResponse prompt history o2) := by
  refine ⟨?_, rfl, rfl, ?_⟩
  · simp [getAIRequest, joinLines_eq_intercalate]
  · intro o1 o2 h
    simp [getAIResponse, h]

/-- C5 counterexample: posting the message "a\nb" (which contains a
newline) from an empty store succeeds with reply "ok" and the last line
of the get text is "AI: ok", but the line immediately preceding it is "b", not
"User: a\nb" — the claim fails for newline-carrying messages. -/
theorem c5_counterexample :
    (handlePost none "a\nb" (fun _ => .ok (.vstr "ok"))).1 = .ok "ok" ∧
    penultimateLineOf
        (handleGet (handlePost none "a\nb" (fun _ => .ok (.vstr "ok"))).2) =
      some "b" ∧
    penultimateLineOf
        (handleGet (handlePost none "a\nb" (fun _ => .ok (.vstr "ok"))).2) ≠
      some ("User: " ++ "a\nb") :=
  ⟨rfl, by decide, by decide⟩

/-- C5 (amended): for every message m and reply r containing no newline
character, a successful post that obtains reply r returns r to the
caller (its first component is `.ok r`), and the subsequent get returns
text whose last line is "AI: <r>", immediately preceded by the line
"User: <m>". -/
theorem c5_post_then_get_lines (st : StoreState) (m r : String)
    (st' : StoreState) (ai : AIOracle)
    (hpost : handlePost st m ai = (.ok r, st'))
    (hm : '\n' ∉ m.data) (hr : '\n' ∉ r.data) :
    lastLineOf (handleGet st') = some ("AI: " ++ r) ∧
    penultimateLineOf (handleGet st') = some ("User: " ++ m) := by
  cases hg : getAIResponse m (loadHistory st) ai with
  | error e => simp [handlePost, hg] at hpost
  | ok reply =>
    simp only [handlePost, hg, Prod.mk.injEq, Except.ok.injEq] at hpost
    obtain ⟨hrep, hst⟩ := hpost
    have hlines : st' = some (loadHistory st ++ ["User: " ++ m, "AI: " ++ r]) := by
      rw [← hst, hrep]
      rfl
    have hu : '\n' ∉ ("User: " ++ m).data := by
      rw [String.data_append]
      intro hmem
      rcases List.mem_append.1 hmem with hmem | hmem
      · exact absurd hmem (by decide)
      · exact hm hmem
    have ha : '\n' ∉ ("AI: " ++ r).data := by
      rw [String.data_append]
      intro hmem
      rcases List.mem_append.1 hmem with hmem | hmem
      · exact absurd hmem (by decide)
      · exact hr hmem
    obtain ⟨pre, hpre⟩ :=
      textLines_append_two (loadHistory st) ("User: " ++ m) ("AI: " ++ r) hu ha
    have hget : handleGet st' =
        joinLines (loadHistory st ++ ["User: " ++ m, "AI: " ++ r]) := by
      rw [hlines]
      rfl
    constructor
    · rw [lastLineOf, hget, hpre,
        show pre ++ ["User: " ++ m, "AI: " ++ r] =
          (pre ++ ["User: " ++ m]) ++ ["AI: " ++ r] by simp,
        List.getLast?_concat]
    · rw [penultimateLineOf, hget, hpre,
        show pre ++ ["User: " ++ m, "AI: " ++ r] =
          (pre ++ ["User: " ++ m]) ++ ["AI: " ++ r] by simp,
        List.dropLast_concat, List.getLast?_concat]

theorem c5_witness :
    handlePost none "hi" (fun _ => .ok (.vstr "yo")) =
      (.ok "yo", some ["User: hi", "AI: yo"]) ∧
    '\n' ∉ ("hi" : String).data ∧ '\n' ∉ ("yo" : String).data ∧
    (lastLineOf (handleGet (some ["User: hi", "AI: yo"])) =
        some ("AI: " ++ "yo") ∧
      penultimateLineOf (handleGet (some ["User: hi", "AI: yo"])) =
        some ("User: " ++ "hi")) :=
  ⟨rfl, by decide, by decide,
    c5_post_then_get_lines none "hi" "yo" (some ["User: hi", "AI: yo"])
      (fun _ => .ok (.vstr "yo")) rfl (by decide) (by decide)⟩

/-- The interleaved turn lines of n turns are 2n lines. -/
theorem turnLines_length (l : List (String × String)) :
    (turnLines l).length = 2 * l.length := by
  induction l with
  | nil => rfl
  | cons p rest ih =>
    obtain ⟨m, r⟩ := p
    simp only [turnLines, List.length_cons, ih]
    omega

/-- A successful run of sequential posts appends exactly the interleaved
User/AI turn lines of its messages and the generated replies. -/
theorem runPosts_append (posts : List (String × AIOracle)) :
    ∀ st st', runPosts st posts = .ok st' →
      ∃ rs : List String, rs.length = posts.length ∧
        loadHistory st' =
          loadHistory st ++ turnLines ((posts.map Prod.fst).zip rs) := by
  induction posts with
  | nil =>
    intro st st' h
    refine ⟨[], rfl, ?_⟩
    simp only [runPosts, Except.ok.injEq] at h
    subst h
    simp [turnLines]
  | cons p rest ih =>
    intro st st' h
    obtain ⟨m, ai⟩ := p
    simp only [runPosts] at h
    cases hg : getAIResponse m (loadHistory st) ai with
    | error e => simp [handlePost, hg] at h
    | ok reply =>
      simp only [handlePost, hg] at h
      obtain ⟨rs, hlen, hh⟩ := ih _ st' h
      refine ⟨reply :: rs, by simp [hlen], ?_⟩
      rw [loadHistory_saveHistory] at hh
      rw [hh]
      simp [turnLines, List.append_assoc, List.zip]

/-- C6: starting from an empty conversation, every sequence of N
sequential successful posts on the same instance leaves a stored history
of exactly 2N lines in preserved turn order: the interleaved
"User: <mi>" / "AI: <ri>" lines of the posts in posting order, each post
contributing exactly its own two lines after all earlier ones. -/
theorem c6_sequential_posts (posts : List (String × AIOracle))
    (st' : StoreState) (h : runPosts none posts = .ok st') :
    ∃ rs : List String, rs.length = posts.length ∧
      loadHistory st' = turnLines ((posts.map Prod.fst).zip rs) ∧
      (loadHistory st').length = 2 * posts.length := by
  obtain ⟨rs, hlen, hh⟩ := runPosts_append posts none st' h
  refine ⟨rs, hlen, ?_, ?_⟩
  · simpa [loadHistory] using hh
  · rw [hh]
    simp [loadHistory, turnLines_length, hlen]

def demoOracle : AIOracle := fun _ => .ok (.vstr "4")

def demoPosts : List (String × AIOracle) := [("q", demoOracle)]

theorem c6_witness :
    runPosts none demoPosts = .ok (some ["User: q", "AI: 4"]) ∧
    ∃ rs : List String, rs.length = demoPosts.length ∧
      loadHistory (some ["User: q", "AI: 4"]) =
        turnLines ((demoPosts.map Prod.fst).zip rs) ∧
      (loadHistory (some ["User: q", "AI: 4"])).length =
        2 * demoPosts.length :=
  ⟨rfl, c6_sequential_posts demoPosts (some ["User: q", "AI: 4"]) rfl⟩

end StudyBuddy
